import Mathlib

/-!
Shallow embedding of the bot-jual conversational commerce agent, covering the
catalog index (internal/convo/products.go), the Atlantic webhook ingress and
transaction-status normalizer (internal/atl), and the persistence facade
(internal/repo: the pgx-based Repository, the PostgresRepository and the
SQLiteRepository).

Modelling conventions:
- Go strings are Lean Strings; the Unicode-aware helpers of the Go standard
  library (strings.ToLower, strings.TrimSpace, strings.Fields, ...) are
  modelled on their ASCII fragment, which is the alphabet all the search,
  auth and status data of this program ranges over.
- float64 prices are modelled as exact integers (Int): every price-related
  operation in the modelled code only compares, subtracts and truncates
  prices, and those operations agree with the float64 ones on integral values.
- SQL tables are lists of row structures; an UPDATE is a List.map over the
  rows and an INSERT an append.  Randomly generated UUIDs are irrelevant to
  every claim and are supplied as explicit placeholder arguments.
- Go sort.Slice (an unstable sort) is modelled by List.insertionSort with the
  non-strict total preorder obtained from the comparator; every property
  proved about a sort.Slice call site is insensitive to which sorted
  permutation the algorithm picks.  Go sort.SliceStable (a stable sort) is
  modelled by List.insertionSort as well, which is stable, and a stable sort
  is uniquely determined by the comparator.
-/

namespace BotJual

/-! ### ASCII fragments of the Go strings package -/

/-- Whitespace recognised by Go unicode.IsSpace (used by strings.TrimSpace and
strings.Fields), restricted to ASCII: space, tab, newline, vertical tab,
form feed, carriage return. -/
def isUSpace (c : Char) : Bool :=
  decide (c = ' ' ∨ c = Char.ofNat 9 ∨ c = Char.ofNat 10 ∨ c = Char.ofNat 11 ∨
    c = Char.ofNat 12 ∨ c = Char.ofNat 13)

/-- Whitespace recognised by the regexp class backslash-s in Go (RE2):
tab, newline, form feed, carriage return, space.  Note: no vertical tab. -/
def isRegexSpace (c : Char) : Bool :=
  decide (c = ' ' ∨ c = Char.ofNat 9 ∨ c = Char.ofNat 10 ∨ c = Char.ofNat 12 ∨
    c = Char.ofNat 13)

def isDigitCh (c : Char) : Bool := decide ('0' ≤ c ∧ c ≤ '9')

def isLowerAlphaCh (c : Char) : Bool := decide ('a' ≤ c ∧ c ≤ 'z')

/-- ASCII case of Go unicode.ToLower, applied rune-wise by strings.ToLower. -/
def lowerChar (c : Char) : Char :=
  if 'A' ≤ c ∧ c ≤ 'Z' then Char.ofNat (c.toNat + 32) else c

/-- Model of strings.ToLower. -/
def strToLower (s : String) : String := ⟨s.data.map lowerChar⟩

/-- Model of strings.TrimSpace. -/
def trimSpace (s : String) : String :=
  ⟨((s.data.dropWhile isUSpace).reverse.dropWhile isUSpace).reverse⟩

/-- Model of strings.Fields: split around maximal whitespace runs, no empty
fields. -/
def strFields (s : String) : List String :=
  (s.data.splitOnP isUSpace).filterMap fun cs =>
    if cs.isEmpty then none else some ⟨cs⟩

/-- Char-list prefix test (helper for the substring check below). -/
def leadsWith : List Char → List Char → Bool
  | [], _ => true
  | _ :: _, [] => false
  | a :: as, b :: bs => a = b && leadsWith as bs

/-- Does sub occur as a contiguous run inside s? -/
def containsSeq (sub : List Char) : List Char → Bool
  | [] => sub.isEmpty
  | c :: rest => leadsWith sub (c :: rest) || containsSeq sub rest

/-- Model of strings.Contains: the second argument occurs as a contiguous
substring of the first. -/
def strContains (s sub : String) : Bool := containsSeq sub.data s.data

/-- Model of strings.EqualFold on the ASCII fragment. -/
def equalFold (a b : String) : Bool := strToLower a == strToLower b

/-- Model of strings.ReplaceAll with a single-character pattern and a
single-character replacement. -/
def replaceChar (s : String) (c r : Char) : String :=
  ⟨s.data.map fun x => if x = c then r else x⟩

/-- Model of strings.ReplaceAll with a single-character pattern and the empty
replacement. -/
def removeChar (s : String) (c : Char) : String :=
  ⟨s.data.filter fun x => x ≠ c⟩

/-- Numeric value of a string of decimal digits. -/
def digitsToNat (ds : List Char) : Nat :=
  ds.foldl (fun acc c => acc * 10 + (c.toNat - 48)) 0

/-- Model of strconv.ParseInt(s, 10, 64) on the inputs this program feeds it
(strings of decimal digits): fails on the empty string, on any non-digit, and
on values that overflow a signed 64-bit integer. -/
def parseInt64 (s : String) : Option Int :=
  if s.data.isEmpty then none
  else if s.data.all isDigitCh then
    let n := digitsToNat s.data
    if n ≤ 2 ^ 63 - 1 then some (n : Int) else none
  else none

/-- Two's-complement wrap-around of signed 64-bit multiplication results
(Go int64 arithmetic overflows silently). -/
def wrap64 (n : Int) : Int := (n + 2 ^ 63) % 2 ^ 64 - 2 ^ 63

/-! ### Catalog data model (internal/atl.PriceListItem) -/

/-- Product price entry (atl.PriceListItem).  The opaque Raw payload, unused
by the search logic, is not modelled; Price is an exact integer standing for
the float64 value. -/
structure PriceListItem where
  Code : String
  Name : String
  Category : String
  Provider : String
  Nominal : String
  Price : Int
  Status : String
  Description : String
deriving DecidableEq, Repr

/-! ### Query tokenizer and stop-word filter (internal/convo/products.go) -/

/-- Expansion of one raw token inside tokenizeQuery: the lowered trimmed token
itself and, when it mixes digits and letters, its digits-only subtoken. -/
def expandToken (token : String) : List String :=
  let t := trimSpace (strToLower token)
  if t = "" then []
  else
    let ds : String := ⟨t.data.filter isDigitCh⟩
    t :: (if t.data.any isDigitCh ∧ t.data.any isLowerAlphaCh then
            (if ds.data.isEmpty then [] else [ds])
          else [])

/-- Model of tokenizeQuery: replace dots and commas by spaces, split into
fields, expand each token. -/
def tokenizeQuery (query : String) : List String :=
  if query = "" then []
  else (strFields (replaceChar (replaceChar query '.' ' ') ',' ' ')).flatMap expandToken

/-- The fixed bilingual stop-word list of filterStopWords. -/
def stopWords : List String :=
  ["yang", "dan", "di", "ke", "dari",
   "ada", "ini", "itu", "untuk", "dengan",
   "saya", "mau", "bisa", "jual", "cari",
   "halo", "hai", "hi", "hey", "bang",
   "mas", "kak", "min", "gan", "bro",
   "tolong", "dong", "ya", "nih", "deh",
   "list", "harga", "kirim", "kirimkan",
   "dibawah", "diatas", "sekitar",
   "the", "is", "a", "an", "of",
   "ribu", "rb", "juta", "jt"]

/-- Model of filterStopWords. -/
def filterStopWords (tokens : List String) : List String :=
  tokens.filter fun t => decide (t ∉ stopWords)

/-! ### Scoring (matchScore) -/

/-- Per-token score of an item: 4 for a hit in the name, 5 in the code,
3 in the category, 3 in the provider (field values lowered first, as in
matchScore). -/
def tokenScore (item : PriceListItem) (token : String) : Nat :=
  (if strContains (strToLower item.Name) token then 4 else 0) +
  (if strContains (strToLower item.Code) token then 5 else 0) +
  (if strContains (strToLower item.Category) token then 3 else 0) +
  (if strContains (strToLower item.Provider) token then 3 else 0)

/-- The significant tokens used by matchScore: the stop-word filtered tokens,
falling back to all tokens when the filter empties the set. -/
def significantTokens (tokens : List String) : List String :=
  let s := filterStopWords tokens
  if s.isEmpty then tokens else s

/-- Number of significant tokens hit by the item (the matched counter of
matchScore; an empty token is skipped). -/
def hitCount (item : PriceListItem) (toks : List String) : Nat :=
  (toks.filter fun t => t ≠ "" && tokenScore item t != 0).length

/-- Sum of the per-token scores (the score accumulator of matchScore). -/
def rawScore (item : PriceListItem) (toks : List String) : Nat :=
  (toks.map fun t => if t = "" then 0 else tokenScore item t).sum

/-- Model of matchScore: items whose provider does not contain the provider
hint score 0; otherwise an item must hit at least half of the significant
tokens, rounded up and at least 1, to receive its summed score. -/
def matchScore (item : PriceListItem) (tokens : List String) (provider : String) : Nat :=
  if provider ≠ "" ∧ ¬ strContains (strToLower item.Provider) provider then 0
  else
    let sig := significantTokens tokens
    let minRequired := max ((sig.length + 1) / 2) 1
    if hitCount item sig < minRequired then 0 else rawScore item sig

/-! ### Amount parsing (parseAmount)

The Go code matches the RE2 pattern
  (backslash-d+(?:[.,]backslash-d+)?)backslash-s*(k|rb|ribu|jt|juta|m)?(?:backslash-s|$|[^a-z])
with leftmost-first (Perl-preference) semantics.  The matcher below
enumerates, at each starting position from the left, the alternatives of
every sub-pattern in exactly the engine's preference order (greedy
repetitions longest first, optionals present first, alternation branches in
written order) and takes the first complete match. -/

/-- Split off the maximal run of characters satisfying p. -/
def spanP (p : Char → Bool) : List Char → List Char × List Char
  | [] => ([], [])
  | c :: cs =>
    if p c then
      let (d, r) := spanP p cs
      (c :: d, r)
    else ([], c :: cs)

/-- The backtracking alternatives of a greedy plus-repetition over a maximal
run ds (rest follows the run): the non-empty prefixes of ds, longest first,
each paired with the unconsumed remainder. -/
def takesDesc (ds rest : List Char) : List (List Char × List Char) :=
  (List.range ds.length).map fun i =>
    (ds.take (ds.length - i), ds.drop (ds.length - i) ++ rest)

/-- Alternatives (in preference order) of the optional fraction part
(?:[.,]backslash-d+)? — present with its digit run longest first, then
absent. -/
def fracAlts (cs : List Char) : List (List Char × List Char) :=
  (match cs with
   | c :: cs2 =>
     if c = '.' ∨ c = ',' then
       let (es, r2) := spanP isDigitCh cs2
       (takesDesc es r2).map fun pr => (c :: pr.1, pr.2)
     else []
   | [] => []) ++ [([], cs)]

/-- Alternatives (in preference order) of the number group
backslash-d+(?:[.,]backslash-d+)?, paired with the unconsumed remainder. -/
def numAlts (cs : List Char) : List (List Char × List Char) :=
  let (ds, rest) := spanP isDigitCh cs
  (takesDesc ds rest).flatMap fun pr =>
    (fracAlts pr.2).map fun fr => (pr.1 ++ fr.1, fr.2)

/-- Alternatives (in preference order) of backslash-s*: remainders after
consuming a prefix of the whitespace run, longest first down to none. -/
def spaceAlts (cs : List Char) : List (List Char) :=
  let (ws, r) := spanP isRegexSpace cs
  (List.range (ws.length + 1)).map fun i => ws.drop (ws.length - i) ++ r

/-- The suffix alternation of the amount regex, in written order. -/
def amountSuffixes : List String := ["k", "rb", "ribu", "jt", "juta", "m"]

/-- Alternatives (in preference order) of the optional suffix group:
each alternation branch that is a prefix of the input, then the empty
(absent) branch. -/
def suffixAlts (cs : List Char) : List (String × List Char) :=
  (amountSuffixes.filterMap fun s =>
    if leadsWith s.data cs then some (s, cs.drop s.data.length) else none) ++
  [("", cs)]

/-- The trailing boundary (?:backslash-s|$|[^a-z]): a whitespace character,
end of input, or any character outside a-z. -/
def boundaryOk : List Char → Bool
  | [] => true
  | c :: _ => isRegexSpace c || !isLowerAlphaCh c

/-- Try to match the amount regex at the current position, returning the
captured number string and suffix of the first (preferred) full match. -/
def matchAt (cs : List Char) : Option (String × String) :=
  (numAlts cs).findSome? fun nr =>
    (spaceAlts nr.2).findSome? fun r2 =>
      (suffixAlts r2).findSome? fun sr =>
        if boundaryOk sr.2 then some (⟨nr.1⟩, sr.1) else none

/-- Leftmost match of the amount regex: scan starting positions left to
right. -/
def findMatch : List Char → Option (String × String)
  | [] => none
  | c :: cs =>
    match matchAt (c :: cs) with
    | some r => some r
    | none => findMatch cs

/-- Match of the fallback pattern backslash-d+(?:[.,]?backslash-d+)? at the
current position (no backtracking can occur: nothing follows the pattern). -/
def fallbackAt (cs : List Char) : Option String :=
  let (ds, r) := spanP isDigitCh cs
  if ds.isEmpty then none
  else
    some ⟨ds ++ (match r with
      | c :: cs2 =>
        if c = '.' ∨ c = ',' then
          let (es, _) := spanP isDigitCh cs2
          if es.isEmpty then [] else c :: es
        else []
      | [] => [])⟩

/-- Leftmost match of the fallback pattern. -/
def fallbackFind : List Char → Option String
  | [] => none
  | c :: cs =>
    match fallbackAt (c :: cs) with
    | some r => some r
    | none => fallbackFind cs

/-- Model of parseAmount.  none models the Go error return. -/
def parseAmount (text : String) : Option Int :=
  if text = "" then none
  else
    let t := strToLower (trimSpace text)
    match findMatch t.data with
    | some (numStr, suffix) =>
      let cleaned := removeChar (removeChar numStr '.') ','
      match parseInt64 cleaned with
      | none => none
      | some num =>
        if suffix = "k" ∨ suffix = "rb" ∨ suffix = "ribu" then
          some (wrap64 (num * 1000))
        else if suffix = "jt" ∨ suffix = "juta" ∨ suffix = "m" then
          some (wrap64 (num * 1000000))
        else some num
    | none =>
      match fallbackFind t.data with
      | none => none
      | some basic => parseInt64 (removeChar (removeChar basic '.') ',')

/-! ### Nominal parsing and amount refinement -/

/-- Model of parseNominalAmount: strip separators, keep digits, parse;
0 on anything unparsable. -/
def parseNominalAmount (value : String) : Int :=
  let v := trimSpace value
  if v = "" then 0
  else
    let v := removeChar (removeChar v '.') ','
    let clean : List Char := v.data.filter isDigitCh
    if clean.isEmpty then 0
    else
      match parseInt64 ⟨clean⟩ with
      | some n => n
      | none => 0

/-- Model of absInt64. -/
def absInt64 (val : Int) : Int := if val < 0 then -val else val

/-- Model of amountDiff: distance of the price to the amount, improved by the
distance of the parsed nominal when that parses positive.  int64(item.Price)
is the identity on the integer prices of the model. -/
def amountDiff (item : PriceListItem) (amount : Int) : Int :=
  let best := absInt64 (item.Price - amount)
  let nominal := parseNominalAmount item.Nominal
  if nominal > 0 then
    let diff := absInt64 (nominal - amount)
    if diff < best then diff else best
  else best

/-! ### Sort comparators

Each Go sort call passes a strict comparator less; the model sorts with the
total preorder le a b := not (less b a) of the same comparator. -/

/-- Comparator key of the empty-query branch of filterByQuery. -/
def catKey (x : PriceListItem) : String := strToLower x.Category

/-- Order of the empty-query branch: lowercased category ascending, ties by
price ascending. -/
def catLex (a b : PriceListItem) : Prop :=
  catKey a < catKey b ∨ (catKey a = catKey b ∧ a.Price ≤ b.Price)

instance : DecidableRel catLex := fun a b => by unfold catLex; infer_instance

/-- Order of filterByBudget: price ascending. -/
def priceLE (a b : PriceListItem) : Prop := a.Price ≤ b.Price

instance : DecidableRel priceLE := fun a b => by unfold priceLE; infer_instance

/-- A scored catalog item (scoredItem). -/
structure scoredItem where
  Item : PriceListItem
  Score : Nat
deriving DecidableEq, Repr

/-- Order of the scored sort in filterByQuery: score descending, ties by
price ascending. -/
def scoreLex (a b : scoredItem) : Prop :=
  b.Score < a.Score ∨ (a.Score = b.Score ∧ a.Item.Price ≤ b.Item.Price)

instance : DecidableRel scoreLex := fun a b => by unfold scoreLex; infer_instance

/-- Order of refineMatchesByAmount: amountDiff ascending, ties by price
ascending (the stable sort keeps the original order inside ties). -/
def amountLex (amount : Int) (a b : PriceListItem) : Prop :=
  amountDiff a amount < amountDiff b amount ∨
    (amountDiff a amount = amountDiff b amount ∧ a.Price ≤ b.Price)

instance (amount : Int) : DecidableRel (amountLex amount) := fun a b => by
  unfold amountLex; infer_instance

/-! ### The catalog entry points -/

/-- Model of topN. -/
def topN (items : List PriceListItem) (n : Nat) : List PriceListItem :=
  if items.length ≤ n then items else items.take n

/-- Model of refineMatchesByAmount (sort.SliceStable modelled by the stable
insertion sort). -/
def refineMatchesByAmount (items : List PriceListItem) (amount : Int) : List PriceListItem :=
  if items.length ≤ 1 ∨ amount ≤ 0 then items
  else List.insertionSort (amountLex amount) items

/-- The scoring loop of filterByQuery: keep the items with positive
matchScore, paired with their score. -/
def scoreItems (items : List PriceListItem) (tokens : List String) (provider : String) :
    List scoredItem :=
  items.filterMap fun item =>
    let score := matchScore item tokens provider
    if 0 < score then some ⟨item, score⟩ else none

/-- The provider fallback of filterByQuery: when nothing scored and a
provider hint is present, every item whose provider contains the hint is
kept with score 1. -/
def providerFallback (items : List PriceListItem) (provider : String) : List scoredItem :=
  items.filterMap fun item =>
    if strContains (strToLower item.Provider) provider then some ⟨item, 1⟩ else none

/-- Model of filterByQuery. -/
def filterByQuery (items : List PriceListItem) (query provider : String) (full : Bool) :
    List PriceListItem :=
  let provider := trimSpace (strToLower provider)
  if query = "" ∧ provider = "" then
    let res := List.insertionSort catLex items
    if full then res else topN res 10
  else
    let query := trimSpace (strToLower query)
    let tokens := tokenizeQuery query
    let scored := scoreItems items tokens provider
    let scored := if scored.isEmpty ∧ provider ≠ "" then providerFallback items provider
                  else scored
    let top := (List.insertionSort scoreLex scored).map scoredItem.Item
    let top := match parseAmount query with
      | some amount => if 0 < amount then refineMatchesByAmount top amount else top
      | none => top
    if full then top else topN top 10

/-- The scored-and-sorted stage of filterByQuery, named for the proofs:
score the items, fall back to the provider filter when nothing scored and a
hint is present, and sort by score descending with ties by price ascending.
Definitionally equal to the corresponding let-chain of filterByQuery. -/
def rankedMatches (items : List PriceListItem) (toks : List String) (prov : String) :
    List scoredItem :=
  List.insertionSort scoreLex
    (if (scoreItems items toks prov).isEmpty ∧ prov ≠ "" then providerFallback items prov
     else scoreItems items toks prov)

/-- The pre-truncation result of filterByQuery on a non-empty query: the
ranked matches, re-ranked by amount when the query parses as a positive
amount.  Definitionally equal to the corresponding let-chain of
filterByQuery. -/
def refinedTop (items : List PriceListItem) (query provider : String) : List PriceListItem :=
  match parseAmount (trimSpace (strToLower query)) with
  | some amount =>
    if 0 < amount then
      refineMatchesByAmount
        ((rankedMatches items (tokenizeQuery (trimSpace (strToLower query)))
          (trimSpace (strToLower provider))).map scoredItem.Item) amount
    else
      (rankedMatches items (tokenizeQuery (trimSpace (strToLower query)))
        (trimSpace (strToLower provider))).map scoredItem.Item
  | none =>
    (rankedMatches items (tokenizeQuery (trimSpace (strToLower query)))
      (trimSpace (strToLower provider))).map scoredItem.Item

/-- Model of filterByBudget. -/
def filterByBudget (items : List PriceListItem) (budget : Int) : List PriceListItem :=
  let res := items.filter fun item =>
    decide (item.Price ≤ budget) && equalFold item.Status "available"
  topN (List.insertionSort priceLE res) 10

/-! ### Transaction status normalizer (internal/atl) -/

/-- Model of normalizeTransactionStatus (the switch cases in source order). -/
def normalizeTransactionStatus (status : String) : String :=
  let t := strToLower (trimSpace status)
  if t = "" ∨ t = "null" then "unknown"
  else if t ∈ ["success", "sukses", "ok", "completed", "complete", "done", "paid",
               "berhasil", "available"] then "success"
  else if t ∈ ["pending", "process", "processing", "diproses", "waiting", "awaiting",
               "progress", "menunggu"] then "pending"
  else if t ∈ ["failed", "gagal", "unavailable", "cancel", "cancelled", "expired",
               "timeout", "void", "rejected"] then "failed"
  else t

/-! ### Webhook ingress (internal/atl WebhookHandler)

The md5Hex function (lowercase hex MD5 digest) is kept abstract: every claim
about the handler is about its control flow, which is parametric in the
digest function. -/

/-- The authentication state of a WebhookHandler (NewWebhookHandler lowercases
both configured digests). -/
structure WebhookHandler where
  usernameMD5 : String
  passwordMD5 : String
deriving DecidableEq, Repr

/-- Model of NewWebhookHandler (logger, metrics and processor do not influence
authentication). -/
def NewWebhookHandler (usernameMD5 passwordMD5 : String) : WebhookHandler :=
  ⟨strToLower usernameMD5, strToLower passwordMD5⟩

/-- The request data consulted by the handler.  A header that is absent reads
as the empty string (net/http Header.Get semantics); basicAuth is the decoded
Authorization header when present and well-formed (http.Request.BasicAuth). -/
structure WebhookRequest where
  method : String
  basicAuth : Option (String × String)
  xAtlSignature : String
  xAtlanticSignature : String
  xSignature : String
deriving DecidableEq, Repr

/-- Model of validateSignatureHeader: the first non-empty (after trimming) of
the three signature headers, lowercased, must equal one of the two expected
digests. -/
def validateSignatureHeader (h : WebhookHandler) (r : WebhookRequest) : Bool :=
  let signature := trimSpace r.xAtlSignature
  let signature := if signature = "" then trimSpace r.xAtlanticSignature else signature
  let signature := if signature = "" then trimSpace r.xSignature else signature
  if signature = "" then false
  else
    let signature := strToLower signature
    signature == h.usernameMD5 || signature == h.passwordMD5

/-- Model of validateAuth: true means no error.  With basic auth present both
digests must match; only without basic auth is the signature header
consulted. -/
def validateAuth (md5Hex : String → String) (h : WebhookHandler) (r : WebhookRequest) : Bool :=
  match r.basicAuth with
  | none => validateSignatureHeader h r
  | some (u, p) => md5Hex u == h.usernameMD5 && md5Hex p == h.passwordMD5

/-- Model of ServeHTTP as the HTTP status code it writes.  processorErr is
whether the processor callback returns a non-nil error; reading the body
always succeeds in the model (the 400 branch is unreachable). -/
def ServeHTTP (md5Hex : String → String) (h : WebhookHandler) (r : WebhookRequest)
    (processorErr : Bool) : Nat :=
  if r.method ≠ "POST" then 405
  else if ¬ validateAuth md5Hex h r then 401
  else if processorErr then 500
  else 200

/-- The authentication predicate asserted by the claim (written from the
specification, for comparison with the code): either matching basic auth, or
any one of the three signature headers carrying one of the two expected
digests; either scheme alone sufficient. -/
def claimAuthenticated (md5Hex : String → String) (h : WebhookHandler)
    (r : WebhookRequest) : Prop :=
  (∃ u p, r.basicAuth = some (u, p) ∧ md5Hex u = h.usernameMD5 ∧ md5Hex p = h.passwordMD5) ∨
  (∃ v ∈ [r.xAtlSignature, r.xAtlanticSignature, r.xSignature],
    v ≠ "" ∧ (strToLower v = h.usernameMD5 ∨ strToLower v = h.passwordMD5))

/-- The authentication predicate the code implements (the amended claim):
with basic auth present both digests must match and the signature headers are
ignored; without basic auth, the first non-empty trimmed signature header (in
the order X-Atl-Signature, X-Atlantic-Signature, X-Signature) must equal,
lowercased, one of the two expected digests. -/
def amendedAuthenticated (md5Hex : String → String) (h : WebhookHandler)
    (r : WebhookRequest) : Prop :=
  match r.basicAuth with
  | some (u, p) => md5Hex u = h.usernameMD5 ∧ md5Hex p = h.passwordMD5
  | none =>
    match [trimSpace r.xAtlSignature, trimSpace r.xAtlanticSignature,
           trimSpace r.xSignature].find? (fun v => v ≠ "") with
    | some signature =>
        strToLower signature = h.usernameMD5 ∨ strToLower signature = h.passwordMD5
    | none => False

/-! ### Persistence facade: orders and deposits

Rows mirror the orders and deposits tables; metadata is a JSON object
modelled as an association list (SQL NULL is none).  Timestamps are abstract
ticks; NOW() / CURRENT_TIMESTAMP is passed in as the now argument. -/

/-- A JSON object document, as stored in the metadata columns. -/
abbrev Meta := List (String × String)

structure OrderRow where
  id : String
  userId : String
  orderRef : String
  productCode : String
  amount : Int
  fee : Int
  status : String
  metadata : Option Meta
  createdAt : Nat
  updatedAt : Nat
deriving DecidableEq, Repr

structure DepositRow where
  id : String
  userId : String
  depositRef : String
  method : String
  amount : Int
  status : String
  metadata : Option Meta
  createdAt : Nat
  updatedAt : Nat
deriving DecidableEq, Repr

/-- Right-biased merge of two JSON objects: keys of the second override the
first (the object semantics of the Postgres jsonb concatenation operator). -/
def mergeObjects (a b : Meta) : Meta :=
  (a.filter fun kv => ¬ b.any fun kv2 => kv2.1 = kv.1) ++ b

/-- The Postgres jsonb concatenation of two nullable object documents; like
every ordinary SQL operator it is strict: a NULL operand gives NULL. -/
def jsonbConcat : Option Meta → Option Meta → Option Meta
  | some a, some b => some (mergeObjects a b)
  | _, _ => none

namespace PostgresRepository

/-- Model of PostgresRepository.UpdateOrderStatus: UPDATE orders SET
status, metadata = COALESCE(new, metadata), updated_at = NOW() WHERE
order_ref matches.  No guard on the previous status; zero matched rows is not
an error. -/
def UpdateOrderStatus (db : List OrderRow) (orderRef status : String)
    (metadata : Option Meta) (now : Nat) : List OrderRow :=
  db.map fun row =>
    if row.orderRef = orderRef then
      { row with
        status := status
        metadata := match metadata with
          | some m => some m
          | none => row.metadata
        updatedAt := now }
    else row

/-- Model of PostgresRepository.UpdateDepositStatus (same COALESCE shape on
the deposits table). -/
def UpdateDepositStatus (db : List DepositRow) (ref status : String)
    (metadata : Option Meta) (now : Nat) : List DepositRow :=
  db.map fun row =>
    if row.depositRef = ref then
      { row with
        status := status
        metadata := match metadata with
          | some m => some m
          | none => row.metadata
        updatedAt := now }
    else row

end PostgresRepository

namespace SQLiteRepository

/-- Model of SQLiteRepository.UpdateOrderStatus: identical COALESCE semantics
in the SQLite dialect. -/
def UpdateOrderStatus (db : List OrderRow) (orderRef status : String)
    (metadata : Option Meta) (now : Nat) : List OrderRow :=
  db.map fun row =>
    if row.orderRef = orderRef then
      { row with
        status := status
        metadata := match metadata with
          | some m => some m
          | none => row.metadata
        updatedAt := now }
    else row

/-- Model of SQLiteRepository.UpdateDepositStatus. -/
def UpdateDepositStatus (db : List DepositRow) (ref status : String)
    (metadata : Option Meta) (now : Nat) : List DepositRow :=
  db.map fun row =>
    if row.depositRef = ref then
      { row with
        status := status
        metadata := match metadata with
          | some m => some m
          | none => row.metadata
        updatedAt := now }
    else row

end SQLiteRepository

namespace Repository

/-- Model of the pgx-based Repository.UpdateOrderStatus (repo.go): UPDATE
orders SET status, metadata = metadata || new, updated_at = NOW() WHERE
order_ref matches; zero matched rows is reported as an error (none). -/
def UpdateOrderStatus (db : List OrderRow) (orderRef status : String)
    (metadata : Option Meta) (now : Nat) : Option (List OrderRow) :=
  if db.any fun row => row.orderRef = orderRef then
    some (db.map fun row =>
      if row.orderRef = orderRef then
        { row with
          status := status
          metadata := jsonbConcat row.metadata metadata
          updatedAt := now }
      else row)
  else none

end Repository

/-! ### Persistence facade: API key credentials -/

/-- A row of the api_keys table (the columns the sync operations touch; the
Supabase flavour additionally carries a status column, defaulted below). -/
structure APIKeyRow where
  id : String
  provider : String
  value : String
  priority : Nat
  cooldownUntil : Option Nat
  status : String
deriving DecidableEq, Repr

def providerGemini : String := "gemini"

namespace SQLiteRepository

/-- Model of SQLiteRepository.upsertAPIKey: INSERT with cooldown NULL, ON
CONFLICT (provider, value) DO UPDATE SET priority, cooldown_until = NULL.
The randomly generated row id is passed in explicitly. -/
def upsertAPIKey (db : List APIKeyRow) (id provider value : String) (priority : Nat) :
    List APIKeyRow :=
  if db.any fun k => k.provider = provider ∧ k.value = value then
    db.map fun k =>
      if k.provider = provider ∧ k.value = value then
        { k with priority := priority, cooldownUntil := none }
      else k
  else
    db ++ [{ id := id, provider := provider, value := value, priority := priority,
             cooldownUntil := none, status := "active" }]

/-- The indexed loop of SQLiteRepository.SyncGeminiKeys. -/
def syncGeminiLoop (db : List APIKeyRow) (idx : Nat) : List String → List APIKeyRow
  | [] => db
  | key :: keys =>
    syncGeminiLoop (upsertAPIKey db (toString idx) providerGemini key idx) (idx + 1) keys

/-- Model of SQLiteRepository.SyncGeminiKeys: errors (none) on an empty key
list, otherwise upserts every key with priority = its index. -/
def SyncGeminiKeys (db : List APIKeyRow) (keys : List String) : Option (List APIKeyRow) :=
  if keys.isEmpty then none else some (syncGeminiLoop db 0 keys)

end SQLiteRepository

namespace Repository

/-- Model of the pgx-based Repository.SyncGeminiKeys (repo.go): for each key
INSERT (value, provider, status) VALUES (key, gemini, active) ON CONFLICT
(value, provider) DO NOTHING.  An existing row is left entirely unchanged;
a fresh row receives the schema defaults (priority 100, cooldown NULL,
generated id modelled as the empty string).  An empty key list is a
successful no-op. -/
def SyncGeminiKeys (db : List APIKeyRow) (keys : List String) : List APIKeyRow :=
  keys.foldl
    (fun db key =>
      if db.any fun k => k.value = key ∧ k.provider = providerGemini then db
      else db ++ [{ id := "", provider := providerGemini, value := key, priority := 100,
                    cooldownUntil := none, status := "active" }])
    db

end Repository

/-! ### Specification predicates

The Prop definitions below spell out the properties the claims assert, so
that each claim is a single theorem and its witness a single instance. -/

/-- Default rows used with List.getD when indexing table models. -/
def dfltOrderRow : OrderRow :=
  { id := "", userId := "", orderRef := "", productCode := "", amount := 0, fee := 0,
    status := "", metadata := none, createdAt := 0, updatedAt := 0 }

def dfltDepositRow : DepositRow :=
  { id := "", userId := "", depositRef := "", method := "", amount := 0,
    status := "", metadata := none, createdAt := 0, updatedAt := 0 }

/-- Frame and metadata policy of a COALESCE-style order status update: the
matched rows get the new status, the supplied metadata (or the old one when
none is supplied) and the new timestamp, every other column is unchanged, and
unmatched rows are untouched. -/
def orderUpdateSpec (db : List OrderRow) (ref st : String) (meta : Option Meta)
    (now : Nat) : Prop :=
  let out := PostgresRepository.UpdateOrderStatus db ref st meta now
  out.length = db.length ∧
  ∀ i, i < db.length →
    let row := db.getD i dfltOrderRow
    let row2 := out.getD i dfltOrderRow
    (row.orderRef = ref →
      row2.status = st ∧
      (∀ m, meta = some m → row2.metadata = some m) ∧
      (meta = none → row2.metadata = row.metadata) ∧
      row2.updatedAt = now ∧
      row2.id = row.id ∧ row2.userId = row.userId ∧ row2.orderRef = row.orderRef ∧
      row2.productCode = row.productCode ∧ row2.amount = row.amount ∧
      row2.fee = row.fee ∧ row2.createdAt = row.createdAt) ∧
    (row.orderRef ≠ ref → row2 = row)

/-- The same policy for SQLiteRepository.UpdateDepositStatus. -/
def depositUpdateSpec (db : List DepositRow) (ref st : String) (meta : Option Meta)
    (now : Nat) : Prop :=
  let out := SQLiteRepository.UpdateDepositStatus db ref st meta now
  out.length = db.length ∧
  ∀ i, i < db.length →
    let row := db.getD i dfltDepositRow
    let row2 := out.getD i dfltDepositRow
    (row.depositRef = ref →
      row2.status = st ∧
      (∀ m, meta = some m → row2.metadata = some m) ∧
      (meta = none → row2.metadata = row.metadata) ∧
      row2.updatedAt = now ∧
      row2.id = row.id ∧ row2.userId = row.userId ∧ row2.depositRef = row.depositRef ∧
      row2.method = row.method ∧ row2.amount = row.amount ∧
      row2.createdAt = row.createdAt) ∧
    (row.depositRef ≠ ref → row2 = row)

/-- What a successful credential sync guarantees: the call succeeds, and for
every list index the gemini credential carrying that secret ends with
priority equal to the index and no cooldown (whether it pre-existed or was
inserted), and it exists. -/
def syncAssignsSpec (db : List APIKeyRow) (keys : List String) : Prop :=
  ∃ out, SQLiteRepository.SyncGeminiKeys db keys = some out ∧
    ∀ i, i < keys.length →
      (∀ k ∈ out, k.provider = providerGemini → k.value = keys.getD i "" →
        k.priority = i ∧ k.cooldownUntil = none) ∧
      (∃ k ∈ out, k.provider = providerGemini ∧ k.value = keys.getD i "")

/-- The membership and ranking guarantee of filterByQuery on a non-empty
query: every returned item either scores positive (which forces it to hit at
least half of the significant tokens, at least one) or is a provider-fallback
item (non-empty hint contained in its provider while no catalog item scores
positive); and unless the query parses as a positive amount, the result is
ordered by score descending with ties by price ascending. -/
def filterByQuerySpec (items : List PriceListItem) (query provider : String)
    (full : Bool) : Prop :=
  let prov := trimSpace (strToLower provider)
  let q := trimSpace (strToLower query)
  let toks := tokenizeQuery q
  let out := filterByQuery items query provider full
  (∀ x ∈ out, 0 < matchScore x toks prov ∨
      (prov ≠ "" ∧ strContains (strToLower x.Provider) prov = true ∧
        ∀ y ∈ items, matchScore y toks prov = 0)) ∧
  ((∀ a, parseAmount q = some a → a ≤ 0) →
    out.Pairwise fun a b =>
      matchScore b toks prov < matchScore a toks prov ∨
        (matchScore a toks prov = matchScore b toks prov ∧ a.Price ≤ b.Price))

/-- The re-ranking guarantee of refineMatchesByAmount: a permutation of the
input that, for a positive amount, is ordered by the key
min(price distance, nominal distance) ascending with ties by price
ascending, and inside equal (key, price) classes keeps the original order
(stability, phrased through filters). -/
def refineSpec (items : List PriceListItem) (amount : Int) : Prop :=
  let out := refineMatchesByAmount items amount
  out.Perm items ∧
  (0 < amount →
    out.Pairwise (amountLex amount) ∧
    ∀ d p, (out.filter fun x => amountDiff x amount == d && x.Price == p) =
           (items.filter fun x => amountDiff x amount == d && x.Price == p))

/-- Every status verb the normalizer maps away from the lowercase-passthrough
branch. -/
def handledStatusVerbs : List String :=
  ["", "null",
   "success", "sukses", "ok", "completed", "complete", "done", "paid",
   "berhasil", "available",
   "pending", "process", "processing", "diproses", "waiting", "awaiting",
   "progress", "menunggu",
   "failed", "gagal", "unavailable", "cancel", "cancelled", "expired",
   "timeout", "void", "rejected"]

/-! ## Helper lemmas on the sort comparators -/

theorem priceLE_total : ∀ a b : PriceListItem, priceLE a b ∨ priceLE b a := fun a b =>
  Int.le_total a.Price b.Price

theorem priceLE_trans : ∀ a b c : PriceListItem, priceLE a b → priceLE b c → priceLE a c :=
  fun _ _ _ hab hbc => le_trans hab hbc

theorem catLex_total : ∀ a b : PriceListItem, catLex a b ∨ catLex b a := by
  intro a b
  rcases lt_trichotomy (catKey a) (catKey b) with h | h | h
  · exact Or.inl (Or.inl h)
  · rcases Int.le_total a.Price b.Price with hp | hp
    · exact Or.inl (Or.inr ⟨h, hp⟩)
    · exact Or.inr (Or.inr ⟨h.symm, hp⟩)
  · exact Or.inr (Or.inl h)

theorem catLex_trans : ∀ a b c : PriceListItem, catLex a b → catLex b c → catLex a c := by
  intro a b c hab hbc
  rcases hab with hab | ⟨hab, hpab⟩
  · rcases hbc with hbc | ⟨hbc, _⟩
    · exact Or.inl (hab.trans hbc)
    · exact Or.inl (lt_of_lt_of_eq hab hbc)
  · rcases hbc with hbc | ⟨hbc, hpbc⟩
    · exact Or.inl (lt_of_eq_of_lt hab hbc)
    · exact Or.inr ⟨hab.trans hbc, hpab.trans hpbc⟩

theorem scoreLex_total : ∀ a b : scoredItem, scoreLex a b ∨ scoreLex b a := by
  intro a b
  rcases Nat.lt_trichotomy b.Score a.Score with h | h | h
  · exact Or.inl (Or.inl h)
  · rcases Int.le_total a.Item.Price b.Item.Price with hp | hp
    · exact Or.inl (Or.inr ⟨h.symm, hp⟩)
    · exact Or.inr (Or.inr ⟨h, hp⟩)
  · exact Or.inr (Or.inl h)

theorem scoreLex_trans : ∀ a b c : scoredItem, scoreLex a b → scoreLex b c → scoreLex a c := by
  intro a b c hab hbc
  rcases hab with hab | ⟨hab, hpab⟩
  · rcases hbc with hbc | ⟨hbc, _⟩
    · exact Or.inl (hbc.trans hab)
    · exact Or.inl (lt_of_eq_of_lt hbc.symm hab)
  · rcases hbc with hbc | ⟨hbc, hpbc⟩
    · exact Or.inl (lt_of_lt_of_eq hbc hab.symm)
    · exact Or.inr ⟨hab.trans hbc, hpab.trans hpbc⟩

theorem amountLex_total (amount : Int) :
    ∀ a b : PriceListItem, amountLex amount a b ∨ amountLex amount b a := by
  intro a b
  rcases lt_trichotomy (amountDiff a amount) (amountDiff b amount) with h | h | h
  · exact Or.inl (Or.inl h)
  · rcases Int.le_total a.Price b.Price with hp | hp
    · exact Or.inl (Or.inr ⟨h, hp⟩)
    · exact Or.inr (Or.inr ⟨h.symm, hp⟩)
  · exact Or.inr (Or.inl h)

theorem amountLex_trans (amount : Int) :
    ∀ a b c : PriceListItem,
      amountLex amount a b → amountLex amount b c → amountLex amount a c := by
  intro a b c hab hbc
  rcases hab with hab | ⟨hab, hpab⟩
  · rcases hbc with hbc | ⟨hbc, _⟩
    · exact Or.inl (hab.trans hbc)
    · exact Or.inl (lt_of_lt_of_eq hab hbc)
  · rcases hbc with hbc | ⟨hbc, hpbc⟩
    · exact Or.inl (lt_of_eq_of_lt hab hbc)
    · exact Or.inr ⟨hab.trans hbc, hpab.trans hpbc⟩

/-! ## Generic helper lemmas -/

theorem topN_eq_take (items : List PriceListItem) (n : Nat) :
    topN items n = items.take n := by
  unfold topN
  split
  · exact (List.take_of_length_le (by assumption)).symm
  · rfl

theorem refineMatchesByAmount_perm (items : List PriceListItem) (amount : Int) :
    (refineMatchesByAmount items amount).Perm items := by
  unfold refineMatchesByAmount
  split
  · exact List.Perm.refl _
  · exact List.perm_insertionSort _ _

/-! ## Claim theorems -/

/-- C1: the claim (and spec property P5) requires UpdateOrderStatus and
UpdateDepositStatus to reject a status update once the stored status is
terminal (success or failed).  The code has no such guard: evaluated on a
table holding a success order (resp. a failed deposit), an update back to
pending is applied verbatim by both the Postgres and the SQLite
implementation instead of being rejected. -/
theorem updateStatus_ignores_terminal_states :
    (PostgresRepository.UpdateOrderStatus
      [{ id := "1", userId := "u", orderRef := "ORD-1", productCode := "P", amount := 100,
         fee := 0, status := "success", metadata := none, createdAt := 0, updatedAt := 0 }]
      "ORD-1" "pending" none 1).map OrderRow.status = ["pending"] ∧
    (SQLiteRepository.UpdateOrderStatus
      [{ id := "1", userId := "u", orderRef := "ORD-1", productCode := "P", amount := 100,
         fee := 0, status := "success", metadata := none, createdAt := 0, updatedAt := 0 }]
      "ORD-1" "pending" none 1).map OrderRow.status = ["pending"] ∧
    (SQLiteRepository.UpdateDepositStatus
      [{ id := "1", userId := "u", depositRef := "DEP-1", method := "qris", amount := 100,
         status := "failed", metadata := none, createdAt := 0, updatedAt := 0 }]
      "DEP-1" "pending" none 1).map DepositRow.status = ["pending"] := by
  decide

/-- C3 counterexample: the claim asserts parseAmount of the text 1.5jt is
1500000; the code strips the dot as grouping punctuation before applying the
suffix multiplier and returns 15000000. -/
theorem parseAmount_decimal_jt :
    parseAmount "1.5jt" = some 15000000 ∧ (15000000 : Int) ≠ 1500000 := by
  decide

/-- C3 (amended): the amount parser maps 5k to 5000, 20rb to 20000, 1.5jt to
15000000 (the separator is stripped as grouping punctuation before the
million multiplier applies), kirim 7500 to 7500, and errors on kirim; a
number token with suffix k, rb or ribu is multiplied by 1000 and with jt,
juta or m by 1000000. -/
theorem parseAmount_spec :
    parseAmount "5k" = some 5000 ∧
    parseAmount "20rb" = some 20000 ∧
    parseAmount "1.5jt" = some 15000000 ∧
    parseAmount "kirim 7500" = some 7500 ∧
    parseAmount "kirim" = none ∧
    parseAmount "7ribu" = some 7000 ∧
    parseAmount "2jt" = some 2000000 ∧
    parseAmount "3juta" = some 3000000 ∧
    parseAmount "4m" = some 4000000 := by
  decide

/-- C9 counterexample: the claim requires every verb outside its three listed
sets to pass through lowercased, but the code additionally maps available
(and several other verbs) into the canonical sets: available normalizes to
success, not to itself. -/
theorem normalizeTransactionStatus_available :
    normalizeTransactionStatus "available" = "success" ∧
    normalizeTransactionStatus "available" ≠ "available" := by
  decide

/-- C9 (amended): the normalizer maps success, sukses, ok, completed,
complete, done, paid, berhasil and available to success; pending, process,
processing, diproses, waiting, awaiting, progress and menunggu to pending;
failed, gagal, unavailable, cancel, cancelled, expired, timeout, void and
rejected to failed; the empty string and null to unknown; and every other
string to its lowercased trimmed form. -/
theorem normalizeTransactionStatus_spec :
    (∀ s ∈ (["success", "sukses", "ok", "completed", "complete", "done", "paid",
             "berhasil", "available"] : List String),
       normalizeTransactionStatus s = "success") ∧
    (∀ s ∈ (["pending", "process", "processing", "diproses", "waiting", "awaiting",
             "progress", "menunggu"] : List String),
       normalizeTransactionStatus s = "pending") ∧
    (∀ s ∈ (["failed", "gagal", "unavailable", "cancel", "cancelled", "expired",
             "timeout", "void", "rejected"] : List String),
       normalizeTransactionStatus s = "failed") ∧
    normalizeTransactionStatus "" = "unknown" ∧
    normalizeTransactionStatus "null" = "unknown" ∧
    (∀ s : String, strToLower (trimSpace s) ∉ handledStatusVerbs →
       normalizeTransactionStatus s = strToLower (trimSpace s)) := by
  refine ⟨by decide, by decide, by decide, by decide, by decide, ?_⟩
  intro s h
  unfold normalizeTransactionStatus
  have hsub1 : ∀ x ∈ (["success", "sukses", "ok", "completed", "complete", "done",
      "paid", "berhasil", "available"] : List String), x ∈ handledStatusVerbs := by decide
  have hsub2 : ∀ x ∈ (["pending", "process", "processing", "diproses", "waiting",
      "awaiting", "progress", "menunggu"] : List String), x ∈ handledStatusVerbs := by decide
  have hsub3 : ∀ x ∈ (["failed", "gagal", "unavailable", "cancel", "cancelled",
      "expired", "timeout", "void", "rejected"] : List String), x ∈ handledStatusVerbs := by
    decide
  rw [if_neg, if_neg, if_neg, if_neg]
  · intro hm
    exact h (hsub3 _ hm)
  · intro hm
    exact h (hsub2 _ hm)
  · intro hm
    exact h (hsub1 _ hm)
  · rintro (he | he)
    · exact h (by rw [he]; decide)
    · exact h (by rw [he]; decide)

/-- C9 witness: a verb outside every handled set passes through lowercased
and trimmed. -/
theorem normalizeTransactionStatus_spec_witness :
    normalizeTransactionStatus " Refunded " = "refunded" := by
  have h := normalizeTransactionStatus_spec.2.2.2.2.2 " Refunded " (by decide)
  simpa using h

/-- C2 counterexample: the claim makes either scheme alone sufficient, so a
POST carrying non-matching basic auth together with a valid X-Atl-Signature
header would be authenticated; the handler consults the signature headers
only when basic auth is absent and answers 401 on this request. -/
theorem webhookAuth_signature_ignored_with_basic_auth :
    ServeHTTP (fun s => s) (NewWebhookHandler "aaa" "bbb")
      { method := "POST", basicAuth := some ("x", "y"),
        xAtlSignature := "aaa", xAtlanticSignature := "", xSignature := "" } false = 401 ∧
    claimAuthenticated (fun s => s) (NewWebhookHandler "aaa" "bbb")
      { method := "POST", basicAuth := some ("x", "y"),
        xAtlSignature := "aaa", xAtlanticSignature := "", xSignature := "" } := by
  constructor
  · decide
  · exact Or.inr ⟨"aaa", by decide, by decide, Or.inl (by decide)⟩

/-- C2 (amended): for a POST request the settlement webhook handler responds
401 exactly when authentication fails, where a request carrying basic auth is
authenticated iff both credential digests match the configured expected MD5
values (the signature headers being ignored), and a request without basic
auth is authenticated iff its first non-empty trimmed signature header, in
the order X-Atl-Signature, X-Atlantic-Signature, X-Signature, equals
case-insensitively one of the two expected MD5 values. -/
theorem ServeHTTP_unauthorized_iff (md5Hex : String → String) (h : WebhookHandler)
    (r : WebhookRequest) (processorErr : Bool) (hm : r.method = "POST") :
    ServeHTTP md5Hex h r processorErr = 401 ↔ ¬ amendedAuthenticated md5Hex h r := by
  have hauth : validateAuth md5Hex h r = true ↔ amendedAuthenticated md5Hex h r := by
    unfold validateAuth amendedAuthenticated validateSignatureHeader
    match hb : r.basicAuth with
    | some (u, p) =>
      simp
    | none =>
      by_cases h1 : trimSpace r.xAtlSignature = "" <;>
        by_cases h2 : trimSpace r.xAtlanticSignature = "" <;>
          by_cases h3 : trimSpace r.xSignature = "" <;>
            simp [h1, h2, h3, List.find?]
  unfold ServeHTTP
  rw [if_neg (by simp [hm])]
  by_cases ha : validateAuth md5Hex h r
  · rw [if_neg (by simp [ha])]
    constructor
    · intro heq
      split at heq <;> omega
    · intro hna
      exact absurd (hauth.mp ha) hna
  · rw [if_pos (by simp [ha])]
    have : ¬ amendedAuthenticated md5Hex h r := fun hx =>
      ha (hauth.mpr hx)
    exact ⟨fun _ => this, fun _ => rfl⟩

/-- C2 witness: the amended equivalence at a concrete request authenticated
through the signature scheme. -/
theorem ServeHTTP_unauthorized_iff_witness :
    ServeHTTP (fun s => s) (NewWebhookHandler "aa" "bb")
      { method := "POST", basicAuth := none,
        xAtlSignature := "aa", xAtlanticSignature := "", xSignature := "" } false = 401 ↔
    ¬ amendedAuthenticated (fun s => s) (NewWebhookHandler "aa" "bb")
      { method := "POST", basicAuth := none,
        xAtlSignature := "aa", xAtlanticSignature := "", xSignature := "" } :=
  ServeHTTP_unauthorized_iff (fun s => s) (NewWebhookHandler "aa" "bb")
    { method := "POST", basicAuth := none,
      xAtlSignature := "aa", xAtlanticSignature := "", xSignature := "" } false rfl

/-- C7 counterexample: the claim says a supplied metadata document replaces
the stored one on every status update, but the pgx-based
Repository.UpdateOrderStatus concatenates with jsonb, merging the supplied
document into the stored one: updating a row storing the key a with a
document carrying only the key b leaves both keys, not just b. -/
theorem repoUpdateOrderStatus_merges_metadata :
    Repository.UpdateOrderStatus
      [{ id := "1", userId := "u", orderRef := "ORD-1", productCode := "P", amount := 100,
         fee := 0, status := "pending", metadata := some [("a", "1")],
         createdAt := 0, updatedAt := 0 }]
      "ORD-1" "success" (some [("b", "2")]) 1 =
    some [{ id := "1", userId := "u", orderRef := "ORD-1", productCode := "P", amount := 100,
            fee := 0, status := "success", metadata := some [("a", "1"), ("b", "2")],
            createdAt := 0, updatedAt := 1 }] ∧
    (some [("a", "1"), ("b", "2")] : Option Meta) ≠ some [("b", "2")] := by
  decide

/-- C7 (amended): in the COALESCE-based implementations (the
PostgresRepository order update and the SQLiteRepository deposit update), a
status update with a supplied metadata document replaces the stored one, a
nil metadata argument preserves the stored document, and every column of the
matched rows other than status, metadata and updated_at is unchanged, as are
all rows with a different reference; the pgx-based Repository instead merges
a supplied document into the stored one. -/
theorem updateStatus_metadata_policy :
    (∀ (db : List OrderRow) (ref st : String) (meta : Option Meta) (now : Nat),
      orderUpdateSpec db ref st meta now) ∧
    (∀ (db : List DepositRow) (ref st : String) (meta : Option Meta) (now : Nat),
      depositUpdateSpec db ref st meta now) := by
  constructor
  · intro db ref st meta now
    unfold orderUpdateSpec PostgresRepository.UpdateOrderStatus
    refine ⟨by simp, ?_⟩
    intro i hi
    simp only [List.getD_eq_getElem?_getD, List.getElem?_map]
    have hx : db[i]? = some (db.getD i dfltOrderRow) := by
      rw [List.getD_eq_getElem?_getD, List.getElem?_eq_getElem hi]
      simp
    rw [hx]
    simp only [Option.map_some', Option.getD_some]
    set row := db.getD i dfltOrderRow with hrow
    constructor
    · intro href
      rw [if_pos href]
      cases meta <;> simp
    · intro href
      rw [if_neg href]
  · intro db ref st meta now
    unfold depositUpdateSpec SQLiteRepository.UpdateDepositStatus
    refine ⟨by simp, ?_⟩
    intro i hi
    simp only [List.getD_eq_getElem?_getD, List.getElem?_map]
    have hx : db[i]? = some (db.getD i dfltDepositRow) := by
      rw [List.getD_eq_getElem?_getD, List.getElem?_eq_getElem hi]
      simp
    rw [hx]
    simp only [Option.map_some', Option.getD_some]
    set row := db.getD i dfltDepositRow with hrow
    constructor
    · intro href
      rw [if_pos href]
      cases meta <;> simp
    · intro href
      rw [if_neg href]

/-- C7 witness: the policy evaluated on a concrete two-row table, one row
matched with metadata supplied and one row left alone. -/
theorem updateStatus_metadata_policy_witness :
    orderUpdateSpec
      [{ id := "1", userId := "u", orderRef := "ORD-1", productCode := "P", amount := 100,
         fee := 0, status := "pending", metadata := some [("a", "1")],
         createdAt := 0, updatedAt := 0 },
       { id := "2", userId := "u", orderRef := "ORD-2", productCode := "Q", amount := 50,
         fee := 0, status := "pending", metadata := none, createdAt := 0, updatedAt := 0 }]
      "ORD-1" "success" (some [("b", "2")]) 7 :=
  updateStatus_metadata_policy.1 _ "ORD-1" "success" (some [("b", "2")]) 7

/-! ## Helper lemmas for the credential sync -/

theorem upsertAPIKey_same (db : List APIKeyRow) (id v : String) (pr : Nat) :
    (∀ k ∈ SQLiteRepository.upsertAPIKey db id providerGemini v pr,
      k.provider = providerGemini → k.value = v →
        k.priority = pr ∧ k.cooldownUntil = none) ∧
    (∃ k ∈ SQLiteRepository.upsertAPIKey db id providerGemini v pr,
      k.provider = providerGemini ∧ k.value = v) := by
  unfold SQLiteRepository.upsertAPIKey
  split
  case isTrue hex =>
    constructor
    · intro k hk
      simp only [List.mem_map] at hk
      obtain ⟨k0, hk0, rfl⟩ := hk
      by_cases hc : k0.provider = providerGemini ∧ k0.value = v
      · rw [if_pos hc]
        intro _ _
        exact ⟨rfl, rfl⟩
      · rw [if_neg hc]
        intro hp hv
        exact absurd ⟨hp, hv⟩ hc
    · rw [List.any_eq_true] at hex
      obtain ⟨k0, hk0, hc⟩ := hex
      rw [decide_eq_true_eq] at hc
      refine ⟨_, List.mem_map_of_mem _ hk0, ?_⟩
      dsimp only
      rw [if_pos hc]
      exact ⟨hc.1, hc.2⟩
  case isFalse hex =>
    constructor
    · intro k hk
      rw [List.mem_append] at hk
      rcases hk with hk | hk
      · intro hp hv
        exact absurd (List.any_eq_true.mpr ⟨k, hk, decide_eq_true ⟨hp, hv⟩⟩) hex
      · rw [List.mem_singleton] at hk
        subst hk
        intro _ _
        exact ⟨rfl, rfl⟩
    · exact ⟨_, List.mem_append_right _ (List.mem_singleton_self _), rfl, rfl⟩

theorem upsertAPIKey_other (db : List APIKeyRow) (id v v2 : String) (pr j : Nat)
    (hv : v2 ≠ v) :
    ((∀ k ∈ db, k.provider = providerGemini → k.value = v2 →
        k.priority = j ∧ k.cooldownUntil = none) →
      ∀ k ∈ SQLiteRepository.upsertAPIKey db id providerGemini v pr,
        k.provider = providerGemini → k.value = v2 →
          k.priority = j ∧ k.cooldownUntil = none) ∧
    ((∃ k ∈ db, k.provider = providerGemini ∧ k.value = v2) →
      ∃ k ∈ SQLiteRepository.upsertAPIKey db id providerGemini v pr,
        k.provider = providerGemini ∧ k.value = v2) := by
  unfold SQLiteRepository.upsertAPIKey
  split
  case isTrue hex =>
    constructor
    · intro hall k hk
      simp only [List.mem_map] at hk
      obtain ⟨k0, hk0, rfl⟩ := hk
      by_cases hc : k0.provider = providerGemini ∧ k0.value = v
      · rw [if_pos hc]
        intro _ hv2
        exact absurd (hv2 ▸ hc.2) hv
      · rw [if_neg hc]
        exact hall k0 hk0
    · intro hex2
      obtain ⟨k0, hk0, hp, hv2⟩ := hex2
      have hc : ¬ (k0.provider = providerGemini ∧ k0.value = v) := fun hcc =>
        hv (hv2 ▸ hcc.2)
      refine ⟨_, List.mem_map_of_mem _ hk0, ?_⟩
      dsimp only
      rw [if_neg hc]
      exact ⟨hp, hv2⟩
  case isFalse hex =>
    constructor
    · intro hall k hk
      rw [List.mem_append] at hk
      rcases hk with hk | hk
      · exact hall k hk
      · rw [List.mem_singleton] at hk
        subst hk
        intro _ hv2
        exact absurd hv2.symm hv
    · intro hex2
      obtain ⟨k0, hk0, hp, hv2⟩ := hex2
      exact ⟨k0, List.mem_append_left _ hk0, hp, hv2⟩

theorem syncGeminiLoop_preserves (ks : List String) (db : List APIKeyRow) (idx : Nat)
    (v2 : String) (j : Nat) (hv : v2 ∉ ks) :
    ((∀ k ∈ db, k.provider = providerGemini → k.value = v2 →
        k.priority = j ∧ k.cooldownUntil = none) →
      ∀ k ∈ SQLiteRepository.syncGeminiLoop db idx ks,
        k.provider = providerGemini → k.value = v2 →
          k.priority = j ∧ k.cooldownUntil = none) ∧
    ((∃ k ∈ db, k.provider = providerGemini ∧ k.value = v2) →
      ∃ k ∈ SQLiteRepository.syncGeminiLoop db idx ks,
        k.provider = providerGemini ∧ k.value = v2) := by
  induction ks generalizing db idx with
  | nil => exact ⟨fun h => h, fun h => h⟩
  | cons k0 ks ih =>
    have hne : v2 ≠ k0 := fun h => hv (h ▸ List.mem_cons_self k0 ks)
    have hnv : v2 ∉ ks := fun h => hv (List.mem_cons_of_mem _ h)
    unfold SQLiteRepository.syncGeminiLoop
    constructor
    · intro hall
      exact (ih _ (idx + 1) hnv).1
        ((upsertAPIKey_other db (toString idx) k0 v2 idx j hne).1 hall)
    · intro hex2
      exact (ih _ (idx + 1) hnv).2
        ((upsertAPIKey_other db (toString idx) k0 v2 idx j hne).2 hex2)

theorem syncGeminiLoop_assigns (ks : List String) (db : List APIKeyRow) (idx i : Nat)
    (hi : i < ks.length) (hnd : ks.Nodup) :
    (∀ k ∈ SQLiteRepository.syncGeminiLoop db idx ks,
      k.provider = providerGemini → k.value = ks.getD i "" →
        k.priority = idx + i ∧ k.cooldownUntil = none) ∧
    (∃ k ∈ SQLiteRepository.syncGeminiLoop db idx ks,
      k.provider = providerGemini ∧ k.value = ks.getD i "") := by
  induction ks generalizing db idx i with
  | nil => exact absurd hi (by simp)
  | cons k0 ks ih =>
    rcases List.nodup_cons.mp hnd with ⟨hk0, hnd2⟩
    unfold SQLiteRepository.syncGeminiLoop
    cases i with
    | zero =>
      have hsame := upsertAPIKey_same db (toString idx) k0 idx
      have hpres := syncGeminiLoop_preserves ks
        (SQLiteRepository.upsertAPIKey db (toString idx) providerGemini k0 idx)
        (idx + 1) k0 idx hk0
      refine ⟨?_, ?_⟩
      · intro k hk
        simp only [List.getD_cons_zero]
        have := hpres.1 hsame.1 k hk
        simpa using this
      · simp only [List.getD_cons_zero]
        exact hpres.2 hsame.2
    | succ i2 =>
      have hi2 : i2 < ks.length := by
        simpa using Nat.lt_of_succ_lt_succ hi
      have := ih (SQLiteRepository.upsertAPIKey db (toString idx) providerGemini k0 idx)
        (idx + 1) i2 hi2 hnd2
      refine ⟨?_, ?_⟩
      · intro k hk
        rw [List.getD_cons_succ]
        intro hp hv
        have hres := this.1 k hk hp hv
        exact ⟨hres.1.trans (by omega), hres.2⟩
      · rw [List.getD_cons_succ]
        exact this.2

/-- C8 counterexample: the claim requires a resynced credential to end with
priority equal to its list index and a cleared cooldown even when it already
existed, but the pgx-based Repository.SyncGeminiKeys inserts with ON CONFLICT
DO NOTHING: an existing gemini credential keeps its old priority 7 and its
cooldown timestamp. -/
theorem repoSyncGeminiKeys_keeps_existing :
    Repository.SyncGeminiKeys
      [{ id := "k1", provider := "gemini", value := "SECRET", priority := 7,
         cooldownUntil := some 99, status := "active" }] ["SECRET"] =
    [{ id := "k1", provider := "gemini", value := "SECRET", priority := 7,
       cooldownUntil := some 99, status := "active" }] ∧
    (7 : Nat) ≠ 0 ∧ (some 99 : Option Nat) ≠ none := by
  decide

/-- C8 (amended): the SQLite SyncGeminiKeys, given a non-empty duplicate-free
ordered list of secrets, upserts each credential keyed by (provider, value)
so that afterwards the gemini credential carrying the secret at list index i
has priority i and a cleared (null) cooldown, including credentials that
already existed before the call; the pgx-based Repository version only
inserts missing rows and leaves existing credentials untouched. -/
theorem syncGeminiKeys_assigns_indexed_priorities (db : List APIKeyRow)
    (keys : List String) (hnd : keys.Nodup) (hne : keys ≠ []) :
    syncAssignsSpec db keys := by
  unfold syncAssignsSpec SQLiteRepository.SyncGeminiKeys
  rw [if_neg (by simpa using hne)]
  refine ⟨_, rfl, ?_⟩
  intro i hi
  have h := syncGeminiLoop_assigns keys db 0 i hi hnd
  refine ⟨?_, h.2⟩
  intro k hk hp hv
  have := h.1 k hk hp hv
  simpa using this

/-- C8 witness: syncing two fresh secrets over a table holding a stale row
for the first secret ends with priorities 0 and 1 and cleared cooldowns. -/
theorem syncGeminiKeys_assigns_witness :
    syncAssignsSpec
      [{ id := "k1", provider := "gemini", value := "A", priority := 9,
         cooldownUntil := some 5, status := "active" }] ["A", "B"] :=
  syncGeminiKeys_assigns_indexed_priorities _ ["A", "B"] (by decide) (by decide)

/-- C6 (confirmed): for every list of price items and every budget, the
budget filter returns at most 10 items, sorted by price ascending, drawn
(with multiplicity) from the items whose status is available
case-insensitively and whose price is at most the budget, returning min(10,
their count) of them — so all of them whenever at most 10 qualify — every
returned item satisfies both conditions, and the kept entries are the
cheapest qualifying ones: the output's price sequence is exactly the first
10 of the ascending-sorted price sequence of all qualifying items. -/
theorem filterByBudget_spec (items : List PriceListItem) (budget : Int) :
    (filterByBudget items budget).Pairwise priceLE ∧
    (filterByBudget items budget).length =
      min (items.filter fun item =>
        decide (item.Price ≤ budget) && equalFold item.Status "available").length 10 ∧
    (filterByBudget items budget).Subperm
      (items.filter fun item =>
        decide (item.Price ≤ budget) && equalFold item.Status "available") ∧
    (∀ x ∈ filterByBudget items budget,
      x.Price ≤ budget ∧ equalFold x.Status "available" = true) ∧
    (filterByBudget items budget).map PriceListItem.Price =
      (List.insertionSort (fun a b : Int => a ≤ b)
        ((items.filter fun item =>
          decide (item.Price ≤ budget) && equalFold item.Status "available").map
            PriceListItem.Price)).take 10 := by
  haveI : IsTotal PriceListItem priceLE := ⟨priceLE_total⟩
  haveI : IsTrans PriceListItem priceLE := ⟨fun a b c => priceLE_trans a b c⟩
  set avail := items.filter fun item =>
    decide (item.Price ≤ budget) && equalFold item.Status "available" with hav
  have hbody : filterByBudget items budget =
      (List.insertionSort priceLE avail).take 10 := by
    unfold filterByBudget
    rw [topN_eq_take, hav]
  have hsort : (List.insertionSort priceLE avail).Pairwise priceLE :=
    List.sorted_insertionSort priceLE avail
  have hperm : (List.insertionSort priceLE avail).Perm avail :=
    List.perm_insertionSort priceLE avail
  refine ⟨?_, ?_, ?_, ?_, ?_⟩
  · rw [hbody]
    exact hsort.sublist (List.take_sublist 10 _)
  · rw [hbody, List.length_take, List.length_insertionSort]
    exact Nat.min_comm 10 avail.length
  · rw [hbody]
    exact ((List.take_sublist 10 _).subperm).trans hperm.subperm
  · intro x hx
    rw [hbody] at hx
    have hx2 : x ∈ avail :=
      hperm.mem_iff.mp ((List.take_sublist 10 _).subset hx)
    have := (List.mem_filter.mp hx2).2
    simp only [Bool.and_eq_true, decide_eq_true_eq] at this
    exact this
  · have hmap : (List.insertionSort priceLE avail).map PriceListItem.Price =
        List.insertionSort (fun a b : Int => a ≤ b) (avail.map PriceListItem.Price) := by
      apply List.eq_of_perm_of_sorted (r := fun a b : Int => a ≤ b)
      · exact (hperm.map PriceListItem.Price).trans
          (List.perm_insertionSort (fun a b : Int => a ≤ b)
            (avail.map PriceListItem.Price)).symm
      · exact List.pairwise_map.mpr hsort
      · exact List.sorted_insertionSort (fun a b : Int => a ≤ b) _
    rw [hbody, List.map_take, hmap]

/-- C6 witness: the specification instantiated on a concrete catalog and
budget, extracting the membership consequence. -/
theorem filterByBudget_spec_witness :
    (⟨"TSEL10", "Pulsa 10k", "Pulsa", "tsel", "10000", 10000, "AVAILABLE", ""⟩ :
      PriceListItem).Price ≤ 15000 ∧
    equalFold (⟨"TSEL10", "Pulsa 10k", "Pulsa", "tsel", "10000", 10000, "AVAILABLE", ""⟩ :
      PriceListItem).Status "available" = true :=
  (filterByBudget_spec
    [⟨"TSEL10", "Pulsa 10k", "Pulsa", "tsel", "10000", 10000, "AVAILABLE", ""⟩,
     ⟨"TSEL20", "Pulsa 20k", "Pulsa", "tsel", "20000", 20000, "available", ""⟩]
    15000).2.2.2.1 _ (by decide)

/-- C10 (confirmed): with an empty query and empty provider hint,
filterByQuery never errors (the model is a total function) and returns a
fresh sorted copy of the whole catalog, ordered by lowercased category
ascending with ties by price ascending; with the full flag false the result
is the first 10 entries of that sorted copy.  The input list is never
mutated: the code sorts a copy and the model is pure. -/
theorem filterByQuery_empty_query (items : List PriceListItem) :
    (filterByQuery items "" "" true).Perm items ∧
    (filterByQuery items "" "" true).Pairwise catLex ∧
    filterByQuery items "" "" false = (filterByQuery items "" "" true).take 10 ∧
    (filterByQuery items "" "" false).length = min items.length 10 := by
  haveI : IsTotal PriceListItem catLex := ⟨catLex_total⟩
  haveI : IsTrans PriceListItem catLex := ⟨fun a b c => catLex_trans a b c⟩
  have h1 : filterByQuery items "" "" true = List.insertionSort catLex items := by
    unfold filterByQuery
    rw [if_pos ⟨rfl, by decide⟩]
    rfl
  have h2 : filterByQuery items "" "" false =
      topN (List.insertionSort catLex items) 10 := by
    unfold filterByQuery
    rw [if_pos ⟨rfl, by decide⟩]
    rfl
  refine ⟨?_, ?_, ?_, ?_⟩
  · rw [h1]
    exact List.perm_insertionSort catLex items
  · rw [h1]
    exact List.sorted_insertionSort catLex items
  · rw [h1, h2, topN_eq_take]
  · rw [h2, topN_eq_take, List.length_take, List.length_insertionSort]
    exact Nat.min_comm 10 items.length

/-- C5 counterexample: the claim ranks first by the price distance alone, so
item A (price distance 100) should precede item B (price distance 5000); the
code ranks by the minimum of price distance and nominal distance, and B
(nominal exactly the amount, key 0) comes first. -/
theorem refineMatches_min_key :
    refineMatchesByAmount
      [⟨"A", "", "", "", "", 4900, "", ""⟩, ⟨"B", "", "", "", "5000", 10000, "", ""⟩]
      5000 =
      [⟨"B", "", "", "", "5000", 10000, "", ""⟩, ⟨"A", "", "", "", "", 4900, "", ""⟩] ∧
    absInt64 ((4900 : Int) - 5000) < absInt64 ((10000 : Int) - 5000) := by
  decide

/-- C5 (amended): for a positive amount the matched items are re-ranked by
the key min(|price − amount|, |nominal − amount| when the nominal parses
positive) ascending, with ties broken by price ascending and remaining ties
by the original order (the sort is stable, expressed through the filter
equations); the result is a permutation of the input. -/
theorem refineMatchesByAmount_spec (items : List PriceListItem) (amount : Int) :
    refineSpec items amount := by
  unfold refineSpec
  refine ⟨refineMatchesByAmount_perm items amount, ?_⟩
  intro hpos
  have hne : ¬ amount ≤ 0 := not_le.mpr hpos
  haveI : IsTotal PriceListItem (amountLex amount) := ⟨amountLex_total amount⟩
  haveI : IsTrans PriceListItem (amountLex amount) :=
    ⟨fun a b c => amountLex_trans amount a b c⟩
  by_cases hlen : items.length ≤ 1
  · have hid : refineMatchesByAmount items amount = items := by
      unfold refineMatchesByAmount
      rw [if_pos (Or.inl hlen)]
    rw [hid]
    constructor
    · rcases items with _ | ⟨a, _ | ⟨b, l⟩⟩
      · simp
      · simp
      · simp at hlen
    · intro d p
      rfl
  · have hid : refineMatchesByAmount items amount =
        List.insertionSort (amountLex amount) items := by
      unfold refineMatchesByAmount
      rw [if_neg (by rintro (h | h) <;> [exact hlen h; exact hne h])]
    rw [hid]
    constructor
    · exact List.sorted_insertionSort (amountLex amount) items
    · intro d p
      set f : PriceListItem → Bool :=
        fun x => amountDiff x amount == d && x.Price == p with hf
      have hsubl : (items.filter f).Sublist items := List.filter_sublist items
      have hpair : (items.filter f).Pairwise (amountLex amount) := by
        apply List.pairwise_of_forall_mem_list
        intro a ha b hb
        have ha2 := (List.mem_filter.mp ha).2
        have hb2 := (List.mem_filter.mp hb).2
        simp only [hf, Bool.and_eq_true, beq_iff_eq] at ha2 hb2
        exact Or.inr ⟨ha2.1.trans hb2.1.symm, le_of_eq (ha2.2.trans hb2.2.symm)⟩
      have hsub2 : (items.filter f).Sublist (List.insertionSort (amountLex amount) items) :=
        List.sublist_insertionSort hpair hsubl
      have hsub3 : (items.filter f).Sublist
          ((List.insertionSort (amountLex amount) items).filter f) := by
        have hstep := List.Sublist.filter f hsub2
        rwa [List.filter_eq_self.mpr (fun a ha => (List.mem_filter.mp ha).2)] at hstep
      have hlen2 : ((List.insertionSort (amountLex amount) items).filter f).length =
          (items.filter f).length :=
        ((List.perm_insertionSort (amountLex amount) items).filter f).length_eq
      exact (hsub3.eq_of_length hlen2.symm).symm

/-- C5 witness: the re-ranking specification evaluated on the two-item
catalog of the repository's own unit test. -/
theorem refineMatchesByAmount_spec_witness :
    refineSpec
      [⟨"A", "Item A", "", "", "5000", 7000, "", ""⟩,
       ⟨"B", "Item B", "", "", "10000", 7000, "", ""⟩] 10000 :=
  refineMatchesByAmount_spec _ 10000

/-! ## Helper lemmas for the query search -/

theorem scoreItems_all_zero (items : List PriceListItem) (toks : List String)
    (prov : String) (h : (scoreItems items toks prov).isEmpty = true) :
    ∀ y ∈ items, matchScore y toks prov = 0 := by
  unfold scoreItems at h
  rw [List.isEmpty_iff, List.filterMap_eq_nil_iff] at h
  intro y hy
  have hy2 := h y hy
  dsimp only at hy2
  split at hy2
  · exact absurd hy2 (by simp)
  · omega

theorem rankedMatches_mem (items : List PriceListItem) (toks : List String)
    (prov : String) :
    ∀ si ∈ rankedMatches items toks prov,
      (si.Item ∈ items ∧ 0 < matchScore si.Item toks prov ∧
        si.Score = matchScore si.Item toks prov) ∨
      (si.Item ∈ items ∧ prov ≠ "" ∧
        strContains (strToLower si.Item.Provider) prov = true ∧ si.Score = 1 ∧
        ∀ y ∈ items, matchScore y toks prov = 0) := by
  intro si hsi
  unfold rankedMatches at hsi
  rw [List.mem_insertionSort] at hsi
  by_cases hc : (scoreItems items toks prov).isEmpty = true ∧ prov ≠ ""
  · rw [if_pos hc] at hsi
    right
    unfold providerFallback at hsi
    rw [List.mem_filterMap] at hsi
    obtain ⟨item, hitem, hfi⟩ := hsi
    try dsimp only at hfi
    split at hfi
    · rename_i hcont
      obtain rfl := Option.some.inj hfi
      exact ⟨hitem, hc.2, hcont, rfl, scoreItems_all_zero items toks prov hc.1⟩
    · exact absurd hfi (by simp)
  · rw [if_neg hc] at hsi
    left
    unfold scoreItems at hsi
    rw [List.mem_filterMap] at hsi
    obtain ⟨item, hitem, hfi⟩ := hsi
    try dsimp only at hfi
    split at hfi
    · rename_i hpos
      obtain rfl := Option.some.inj hfi
      exact ⟨hitem, hpos, rfl⟩
    · exact absurd hfi (by simp)

theorem rankedMatches_sorted (items : List PriceListItem) (toks : List String)
    (prov : String) : (rankedMatches items toks prov).Pairwise scoreLex := by
  haveI : IsTotal scoredItem scoreLex := ⟨scoreLex_total⟩
  haveI : IsTrans scoredItem scoreLex := ⟨fun a b c => scoreLex_trans a b c⟩
  unfold rankedMatches
  exact List.sorted_insertionSort scoreLex _

theorem searchTop_sorted (items : List PriceListItem) (toks : List String)
    (prov : String) :
    ((rankedMatches items toks prov).map scoredItem.Item).Pairwise
      (fun a b => matchScore b toks prov < matchScore a toks prov ∨
        (matchScore a toks prov = matchScore b toks prov ∧ a.Price ≤ b.Price)) := by
  rw [List.pairwise_map]
  apply List.Pairwise.imp_of_mem ?_ (rankedMatches_sorted items toks prov)
  intro a b ha hb hab
  unfold scoreLex at hab
  rcases rankedMatches_mem items toks prov a ha with
    ⟨hamem, hapos, hasc⟩ | ⟨hamem, _, _, hasc, halla⟩ <;>
    rcases rankedMatches_mem items toks prov b hb with
      ⟨hbmem, hbpos, hbsc⟩ | ⟨hbmem, _, _, hbsc, hallb⟩
  · rw [hasc, hbsc] at hab
    exact hab
  · exact absurd (hallb a.Item hamem) (by omega)
  · exact absurd (halla b.Item hbmem) (by omega)
  · refine Or.inr ⟨(halla a.Item hamem).trans (halla b.Item hbmem).symm, ?_⟩
    rcases hab with hab | hab
    · rw [hasc, hbsc] at hab
      exact absurd hab (lt_irrefl 1)
    · exact hab.2

theorem filterByQuery_eq (items : List PriceListItem) (query provider : String)
    (full : Bool) (hq : query ≠ "") :
    filterByQuery items query provider full =
      if full then refinedTop items query provider
      else topN (refinedTop items query provider) 10 := by
  unfold filterByQuery refinedTop rankedMatches
  rw [if_neg (fun hc => hq hc.1)]

theorem mem_refinedTop (items : List PriceListItem) (query provider : String)
    (x : PriceListItem) (hx : x ∈ refinedTop items query provider) :
    x ∈ (rankedMatches items (tokenizeQuery (trimSpace (strToLower query)))
          (trimSpace (strToLower provider))).map scoredItem.Item := by
  unfold refinedTop at hx
  split at hx
  · split at hx
    · exact (refineMatchesByAmount_perm _ _).mem_iff.mp hx
    · exact hx
  · exact hx

/-- C4 counterexample: the claim allows only items hitting at least half of
the significant query tokens (at least one) into the result, but with a
non-empty provider hint and a query no item matches, the fallback path
returns every item whose provider contains the hint even though it hits zero
of the one significant token. -/
theorem filterByQuery_fallback_hits_nothing :
    filterByQuery [⟨"", "", "", "telkomsel", "", 0, "", ""⟩] "zzz" "telkomsel" false =
      [⟨"", "", "", "telkomsel", "", 0, "", ""⟩] ∧
    hitCount ⟨"", "", "", "telkomsel", "", 0, "", ""⟩
      (significantTokens (tokenizeQuery (trimSpace (strToLower "zzz")))) = 0 ∧
    (significantTokens (tokenizeQuery (trimSpace (strToLower "zzz")))).length = 1 := by
  decide

/-- C4 (amended): on a non-empty query, every item filterByQuery returns
either has a positive matchScore — which requires hitting at least half,
rounded up and at least one, of the significant tokens, with 5 points per
token in the code, 4 in the name, 3 in the category, 3 in the provider, and
0 for items whose provider does not contain the hint — or is a fallback item
(non-empty hint contained in its provider while no catalog item scores
positive); unless the query parses as a positive amount, the result is
sorted by score descending with ties by price ascending. -/
theorem filterByQuery_matches_and_ranking (items : List PriceListItem)
    (query provider : String) (full : Bool) (hq : query ≠ "") :
    filterByQuerySpec items query provider full := by
  unfold filterByQuerySpec
  have heq := filterByQuery_eq items query provider full hq
  constructor
  · intro x hx
    rw [heq] at hx
    have hx2 : x ∈ refinedTop items query provider := by
      by_cases hf : full
      · rwa [if_pos hf] at hx
      · rw [if_neg hf, topN_eq_take] at hx
        exact (List.take_sublist _ _).subset hx
    have hx3 := mem_refinedTop items query provider x hx2
    rw [List.mem_map] at hx3
    obtain ⟨si, hsi, rfl⟩ := hx3
    rcases rankedMatches_mem items _ _ si hsi with
      ⟨_, hpos, _⟩ | ⟨_, hprov, hcont, _, hall⟩
    · exact Or.inl hpos
    · exact Or.inr ⟨hprov, hcont, hall⟩
  · intro hno
    have hrt : refinedTop items query provider =
        (rankedMatches items (tokenizeQuery (trimSpace (strToLower query)))
          (trimSpace (strToLower provider))).map scoredItem.Item := by
      unfold refinedTop
      cases hp : parseAmount (trimSpace (strToLower query)) with
      | none => rfl
      | some a =>
        dsimp only
        rw [if_neg (not_lt.mpr (hno a hp))]
    rw [heq]
    by_cases hf : full
    · rw [if_pos hf, hrt]
      exact searchTop_sorted items _ _
    · rw [if_neg hf, topN_eq_take, hrt]
      exact (searchTop_sorted items _ _).sublist (List.take_sublist _ _)

/-- C4 witness: the search specification evaluated on the two-item catalog of
the repository's own unit test and its query. -/
theorem filterByQuery_matches_witness :
    filterByQuerySpec
      [⟨"TSEL10", "Pulsa Telkomsel 10k", "Pulsa", "Telkomsel", "10000", 10000, "available", ""⟩,
       ⟨"TSEL20", "Pulsa Telkomsel 20k", "Pulsa", "Telkomsel", "20000", 20000, "available", ""⟩]
      "pulsa telkomsel" "telkomsel" false :=
  filterByQuery_matches_and_ranking _ "pulsa telkomsel" "telkomsel" false (by decide)

end BotJual
